import Mathlib

/-!
Shallow embedding of the playback-session engine of the music-bot repository:
the per-guild queue (`QueueService`) and the metadata file cache
(`FileCacheService`).  Timestamps (`Date`, `Date.now()`) are embedded as `Nat`
milliseconds; the JavaScript object identity of a `QueuedTrack` is embedded as
an explicit `id : Nat` field; the voice transport (`VoiceService`) is embedded
as an oracle `Nat → PlayOutcome` giving, per track id, the outcome of
`playYouTubeAudio` (an `ok` result, an `err` result, or a thrown exception),
and the play commands issued to the transport are returned as the list of
track ids passed to `playYouTubeAudio`.  Logging calls are omitted.
-/

namespace MusicBot

/-- From src/types/youtube.ts, `interface VideoInfo`. -/
structure VideoInfo where
  title : String
  url : String
  duration : String
  thumbnail : String
  description : Option String
  views : Option Nat
  audioUrl : Option String
deriving Repr, DecidableEq

/-- From types/queue (unnamed part), `enum LoopMode`. -/
inductive LoopMode where
  | none
  | track
  | queue
deriving Repr, DecidableEq

/-- From types/queue (unnamed part), `interface TrackState`; `Date` fields
become `Nat` epoch milliseconds. -/
structure TrackState where
  startedAt : Option Nat
  pausedAt : Option Nat
  totalPausedDuration : Nat
  isPaused : Bool
  wasSkipped : Bool
deriving Repr, DecidableEq

/-- From types/queue (unnamed part), `interface QueuedTrack`.  The extra
`id` field embeds JavaScript object identity; `requestedBy : GuildMember`
is embedded as the member identifier string. -/
structure QueuedTrack where
  id : Nat
  info : VideoInfo
  requestedBy : String
  addedAt : Nat
  state : TrackState
deriving Repr, DecidableEq

/-- From types/queue (unnamed part), `interface GuildQueue`. -/
structure GuildQueue where
  tracks : List QueuedTrack
  currentTrack : Option QueuedTrack
  isPlaying : Bool
  lastActivity : Nat
  trackHistory : List QueuedTrack
  loopMode : LoopMode
deriving Repr, DecidableEq

/-- From src/utils/error.ts, `enum ErrorType` (the variants used by the
queue service and the cache). -/
inductive ErrorType where
  | Discord
  | Configuration
  | Network
  | Validation
  | Unknown
  | FileSystem
  | YouTube
  | Cache
  | Permission
deriving Repr, DecidableEq

/-- From src/utils/error.ts, `interface AppError` (the `originalError` and
`metadata` payloads are omitted: no claim inspects them). -/
structure AppError where
  type : ErrorType
  message : String
deriving Repr, DecidableEq

/-- Outcome of one `voiceService.playYouTubeAudio` call: a normal `ok`
result, an `err` result value, or a thrown exception / rejected promise. -/
inductive PlayOutcome where
  | ok
  | err (e : AppError)
  | thrown
deriving Repr, DecidableEq

namespace QueueService

/-- From QueueService.ts line 14, `MAX_HISTORY_SIZE = 50`. -/
def MAX_HISTORY_SIZE : Nat := 50

/-- From QueueService.ts lines 58-70 (`getOrCreateQueue`): the freshly
created queue value installed for a guild that has none. -/
def freshGuildQueue (now : Nat) : GuildQueue :=
  { tracks := []
  , currentTrack := none
  , isPlaying := false
  , lastActivity := now
  , trackHistory := []
  , loopMode := LoopMode.none }

/-- From QueueService.ts lines 222-228 and 190-195: the initial playback
state of a newly enqueued (or queue-loop re-appended) track. -/
def initialTrackState : TrackState :=
  { startedAt := none
  , pausedAt := none
  , totalPausedDuration := 0
  , isPaused := false
  , wasSkipped := false }

/-- From QueueService.ts lines 217-229: the `QueuedTrack` record built by
`addToQueue` from the video info and the requesting member. -/
def mkQueuedTrack (id : Nat) (videoInfo : VideoInfo) (member : String)
    (now : Nat) : QueuedTrack :=
  { id := id
  , info := videoInfo
  , requestedBy := member
  , addedAt := now
  , state := initialTrackState }

/-- From QueueService.ts lines 146-151, `addToHistory`: push the track,
then `shift()` (drop the oldest entry) once the length exceeds
`MAX_HISTORY_SIZE`. -/
def addToHistory (q : GuildQueue) (track : QueuedTrack) : GuildQueue :=
  let h := q.trackHistory ++ [track]
  if MAX_HISTORY_SIZE < h.length then { q with trackHistory := h.drop 1 }
  else { q with trackHistory := h }

/-- From QueueService.ts lines 117-144, `playNextTrack`: if the pending list
is empty, clear the current slot and stop; otherwise `shift()` the head into
the current slot, mark playing, and issue a play command.  A thrown
`playYouTubeAudio` is caught: the slot is cleared and the next pending track
is tried recursively (an `err` result value is not checked here, matching the
unchecked `await` in the source).  The second component is the list of track
ids for which a play command was issued. -/
def playNextTrack (oracle : Nat → PlayOutcome) (q : GuildQueue) :
    GuildQueue × List Nat :=
  match hq : q.tracks with
  | [] => ({ q with currentTrack := none, isPlaying := false }, [])
  | nextTrack :: rest =>
    match oracle nextTrack.id with
    | PlayOutcome.thrown =>
      let r := playNextTrack oracle
        { q with tracks := rest, currentTrack := none, isPlaying := false }
      (r.1, nextTrack.id :: r.2)
    | _ =>
      ({ q with
          tracks := rest
          currentTrack := some nextTrack
          isPlaying := true },
       [nextTrack.id])
termination_by q.tracks.length
decreasing_by simp [hq]

/-- From QueueService.ts lines 153-209, `handleTrackEnd`: if no current
track, do nothing.  If the ended track was skipped, it is always added to
history and the queue advances.  Otherwise the loop mode decides: Track mode
re-issues a play for the same track when the end was not an error (and on an
error falls through to a plain advance); Queue mode re-appends a copy of the
ended track with freshly reset playback state; None mode adds the ended
track to history.  All non-replay branches end by advancing via
`playNextTrack`. -/
def handleTrackEnd (oracle : Nat → PlayOutcome) (isError : Bool)
    (q : GuildQueue) : GuildQueue × List Nat :=
  match q.currentTrack with
  | none => (q, [])
  | some endedTrack =>
    if endedTrack.state.wasSkipped = false then
      match q.loopMode with
      | LoopMode.track =>
        if isError = false then (q, [endedTrack.id])
        else playNextTrack oracle q
      | LoopMode.queue =>
        playNextTrack oracle
          { q with tracks :=
              q.tracks ++ [{ endedTrack with state := initialTrackState }] }
      | LoopMode.none =>
        playNextTrack oracle (addToHistory q endedTrack)
    else
      playNextTrack oracle (addToHistory q endedTrack)

/-- From QueueService.ts lines 33-35: the transport `trackEnd` event is
wired to `handleTrackEnd(guildId, false)`. -/
def onTrackEnd (oracle : Nat → PlayOutcome) (q : GuildQueue) :
    GuildQueue × List Nat :=
  handleTrackEnd oracle false q

/-- From QueueService.ts lines 45-48: the transport `trackError` event is
wired to `handleTrackEnd(guildId, true)` (the error is logged, a non-fatal
report). -/
def onTrackError (oracle : Nat → PlayOutcome) (q : GuildQueue) :
    GuildQueue × List Nat :=
  handleTrackEnd oracle true q

/-- From QueueService.ts lines 256-295, `processQueue`: on an empty pending
list, clear the playing state and return a Validation error; otherwise
`shift()` the head into the current slot, mark playing, stamp activity, and
issue the play command.  An `err` result of `playYouTubeAudio` is returned
as that error; a thrown exception is caught and returned as an Unknown
error; in both failure cases the already-updated queue state is kept. -/
def processQueue (oracle : Nat → PlayOutcome) (now : Nat) (q : GuildQueue) :
    GuildQueue × List Nat × Except AppError QueuedTrack :=
  match q.tracks with
  | [] =>
    ({ q with isPlaying := false, currentTrack := none }, [],
     Except.error { type := ErrorType.Validation, message := "Queue is empty" })
  | track :: rest =>
    let q1 : GuildQueue :=
      { q with
          tracks := rest
          currentTrack := some track
          isPlaying := true
          lastActivity := now }
    match oracle track.id with
    | PlayOutcome.ok => (q1, [track.id], Except.ok track)
    | PlayOutcome.err e => (q1, [track.id], Except.error e)
    | PlayOutcome.thrown =>
      (q1, [track.id],
       Except.error { type := ErrorType.Unknown,
                      message := "Failed to process queue" })

/-- From QueueService.ts lines 211-254, `addToQueue` (per-guild-queue view):
build the queued track, append it to the pending list, stamp activity; then,
if nothing is playing, immediately call `processQueue` (which starts
playback); otherwise return the queued-track handle with no play command. -/
def addToQueue (oracle : Nat → PlayOutcome) (id : Nat) (videoInfo : VideoInfo)
    (member : String) (now : Nat) (q : GuildQueue) :
    GuildQueue × List Nat × Except AppError QueuedTrack :=
  let track := mkQueuedTrack id videoInfo member now
  let q1 : GuildQueue :=
    { q with tracks := q.tracks ++ [track], lastActivity := now }
  if q1.isPlaying = false then processQueue oracle now q1
  else (q1, [], Except.ok track)

/-- From QueueService.ts lines 297-320, `skipTrack` (per-guild-queue view):
fail with a Validation error when nothing is playing; otherwise set the
`wasSkipped` flag on the current track and succeed (the subsequent
`stopPlayback` makes the transport emit `trackEnd`, handled separately by
`onTrackEnd`). -/
def skipTrackQueue (q : GuildQueue) : GuildQueue × Except AppError Unit :=
  if q.isPlaying = false then
    (q, Except.error { type := ErrorType.Validation,
                       message := "No track is currently playing" })
  else
    match q.currentTrack with
    | some t =>
      ({ q with
          currentTrack :=
            some { t with state := { t.state with wasSkipped := true } } },
       Except.ok ())
    | none => (q, Except.ok ())

/-- From QueueService.ts lines 351-368, `setLoopMode` (per-guild-queue
view): replace the loop mode. -/
def setLoopModeQueue (mode : LoopMode) (q : GuildQueue) : GuildQueue :=
  { q with loopMode := mode }

/-- The process-wide `queues : Map<string, GuildQueue>` of QueueService.ts,
embedded as an association list keyed by guild id. -/
abbrev Registry := List (String × GuildQueue)

/-- From QueueService.ts lines 322-341, `clearQueue`: when the guild has no
queue, return a Validation error; otherwise stop playback, leave the
channel, and delete the guild entry from the map, returning ok. -/
def clearQueue (qs : Registry) (guildId : String) :
    Registry × Except AppError Unit :=
  match qs.lookup guildId with
  | none =>
    (qs, Except.error { type := ErrorType.Validation,
                        message := "No queue exists for this server" })
  | some _ =>
    (qs.eraseP (fun p => p.1 == guildId), Except.ok ())

/-- The ids of the pending tracks of a queue. -/
def trackIds (q : GuildQueue) : List Nat :=
  q.tracks.map (fun t => t.id)

/-- The spec's Guild Queue invariant, over the embedding: `isPlaying` holds
exactly when the current slot is filled, the pending ids are pairwise
distinct, and the current track is never among the pending tracks. -/
def Inv (q : GuildQueue) : Prop :=
  q.isPlaying = q.currentTrack.isSome
  ∧ (trackIds q).Nodup
  ∧ (∀ c, q.currentTrack = some c → c.id ∉ trackIds q)

end QueueService

namespace FileCacheService

/-- From FileCacheService.ts lines 8-12, `interface CacheEntry`. -/
structure CacheEntry where
  data : VideoInfo
  createdAt : Nat
  accessedAt : Nat
deriving Repr, DecidableEq

/-- The cache directory of FileCacheService.ts, one JSON file per key,
embedded as an association list keyed by the (base64url-encoded) locator. -/
abbrev Cache := List (String × CacheEntry)

/-- Overwrite of the file for `key` (`fs.writeFile`): replace the entry in
place when the key exists, create it otherwise. -/
def setEntry (c : Cache) (key : String) (e : CacheEntry) : Cache :=
  match c with
  | [] => [(key, e)]
  | (k, v) :: rest =>
    if k == key then (key, e) :: rest else (k, v) :: setEntry rest key e

/-- From FileCacheService.ts lines 45-72, `get`: a missing file (ENOENT) is
an ok miss; on a hit the entry is re-written with `accessedAt = Date.now()`
and the stored data is returned. -/
def get (now : Nat) (c : Cache) (key : String) : Cache × Option VideoInfo :=
  match c.lookup key with
  | none => (c, none)
  | some e => (setEntry c key { e with accessedAt := now }, some e.data)

/-- From FileCacheService.ts lines 74-93, `set`: write a fresh entry with
both timestamps set to `Date.now()`. -/
def set (now : Nat) (c : Cache) (key : String) (value : VideoInfo) : Cache :=
  setEntry c key { data := value, createdAt := now, accessedAt := now }

/-- From FileCacheService.ts lines 95-125, `cleanOldEntries`: scan every
entry and unlink exactly those whose `accessedAt` lies further than
`maxAgeHours` (in milliseconds) in the past. -/
def cleanOldEntries (now : Nat) (maxAgeHours : Nat) (c : Cache) : Cache :=
  let maxAgeMs := maxAgeHours * 60 * 60 * 1000
  c.filter (fun p => !(decide (now - p.2.accessedAt > maxAgeMs)))

end FileCacheService

/-! Concrete sample values used by counterexamples and witnesses. -/

/-- A concrete `VideoInfo`. -/
def sampleInfo : VideoInfo :=
  { title := "title"
  , url := "url"
  , duration := "3:00"
  , thumbnail := "thumb"
  , description := none
  , views := none
  , audioUrl := none }

/-- A concrete queued track with the given id. -/
def sampleTrack (id : Nat) : QueuedTrack :=
  QueueService.mkQueuedTrack id sampleInfo "member" 0

/-- A transport oracle whose play commands always succeed. -/
def oracleAllOk : Nat → PlayOutcome := fun _ => PlayOutcome.ok

open QueueService FileCacheService

/-- A concrete queue in Track loop mode (empty pending list) whose current track ended. -/
def loopTrackQueue : GuildQueue :=
  { tracks := []
  , currentTrack := some (sampleTrack 1)
  , isPlaying := true
  , lastActivity := 0
  , trackHistory := []
  , loopMode := LoopMode.track }

/-- A concrete session with a non-empty history list. -/
def historyQueue : GuildQueue :=
  { freshGuildQueue 0 with trackHistory := [sampleTrack 1] }

def skippedTrack : QueuedTrack :=
  { sampleTrack 1 with
      state := { initialTrackState with wasSkipped := true } }

def skipQueue : GuildQueue :=
  { tracks := [sampleTrack 2]
  , currentTrack := some skippedTrack
  , isPlaying := true
  , lastActivity := 0
  , trackHistory := []
  , loopMode := LoopMode.queue }

def queueLoopQueue : GuildQueue :=
  { tracks := [sampleTrack 2]
  , currentTrack := some (sampleTrack 1)
  , isPlaying := true
  , lastActivity := 0
  , trackHistory := []
  , loopMode := LoopMode.queue }

def noneLoopQueue : GuildQueue :=
  { queueLoopQueue with tracks := [], loopMode := LoopMode.none }

def trackLoopQueue2 : GuildQueue :=
  { queueLoopQueue with loopMode := LoopMode.track }

def fullHistoryQueue : GuildQueue :=
  { freshGuildQueue 0 with trackHistory := List.replicate 50 (sampleTrack 3) }

def sampleEntry : FileCacheService.CacheEntry :=
  { data := sampleInfo, createdAt := 0, accessedAt := 0 }

/-- A concrete registry holding one session. -/
def historyRegistry : Registry := [("g", historyQueue)]

/-- A concrete one-entry cache. -/
def sampleCache : FileCacheService.Cache := [("k", sampleEntry)]


end MusicBot

namespace MusicBot.QueueService

theorem playNextTrack_nil (oracle : Nat → PlayOutcome) (q : GuildQueue) (h : q.tracks = []) :
    playNextTrack oracle q = ({ q with currentTrack := none, isPlaying := false }, []) := by
  unfold playNextTrack
  split
  · simp
  · next nextTrack rest hq => rw [h] at hq; cases hq

theorem playNextTrack_cons_ok (oracle : Nat → PlayOutcome) (q : GuildQueue)
    (nextTrack : QueuedTrack) (rest : List QueuedTrack)
    (hq : q.tracks = nextTrack :: rest) (ho : oracle nextTrack.id = PlayOutcome.ok) :
    playNextTrack oracle q =
      ({ q with tracks := rest, currentTrack := some nextTrack, isPlaying := true },
       [nextTrack.id]) := by
  unfold playNextTrack
  split
  · next h0 => rw [hq] at h0; cases h0
  · next nt r h0 =>
      rw [hq] at h0
      cases h0
      split
      · next hth => rw [ho] at hth; cases hth
      · rfl

theorem playNextTrack_cons_thrown (oracle : Nat → PlayOutcome) (q : GuildQueue)
    (nextTrack : QueuedTrack) (rest : List QueuedTrack)
    (hq : q.tracks = nextTrack :: rest) (ho : oracle nextTrack.id = PlayOutcome.thrown) :
    playNextTrack oracle q =
      ((playNextTrack oracle
          { q with tracks := rest, currentTrack := none, isPlaying := false }).1,
       nextTrack.id ::
         (playNextTrack oracle
           { q with tracks := rest, currentTrack := none, isPlaying := false }).2) := by
  conv_lhs => rw [playNextTrack.eq_def]
  split
  · next h0 => rw [hq] at h0; cases h0
  · next nt r h0 =>
      rw [hq] at h0
      cases h0
      split
      · rfl
      · next hth => exact absurd ho (by simp_all)

theorem playNextTrack_fields (oracle : Nat → PlayOutcome) (q : GuildQueue) :
    (playNextTrack oracle q).1.trackHistory = q.trackHistory ∧
    (playNextTrack oracle q).1.loopMode = q.loopMode := by
  induction q using playNextTrack.induct oracle with
  | case1 q hq => rw [playNextTrack_nil oracle q hq]; exact ⟨rfl, rfl⟩
  | case2 q nextTrack rest hq ho ih =>
      rw [playNextTrack_cons_thrown oracle q _ _ hq ho]
      exact ih
  | case3 q nextTrack rest hq ho =>
      unfold playNextTrack
      split
      · next h0 => rw [hq] at h0; cases h0
      · next nt r h0 =>
          rw [hq] at h0; cases h0
          split
          · next hth => exact absurd hth ho
          · exact ⟨rfl, rfl⟩

theorem playNextTrack_tracks_suffix (oracle : Nat → PlayOutcome) (q : GuildQueue) :
    (playNextTrack oracle q).1.tracks <:+ q.tracks := by
  induction q using playNextTrack.induct oracle with
  | case1 q hq => rw [playNextTrack_nil oracle q hq]
  | case2 q nextTrack rest hq ho ih =>
      rw [playNextTrack_cons_thrown oracle q _ _ hq ho, hq]
      exact ih.trans (List.suffix_cons _ _)
  | case3 q nextTrack rest hq ho =>
      unfold playNextTrack
      split
      · next h0 => simp [hq] at h0
      · next nt r h0 =>
          rw [hq] at h0; cases h0
          split
          · next hth => exact absurd hth ho
          · rw [hq]; exact List.suffix_cons _ _

theorem playNextTrack_plays_sub (oracle : Nat → PlayOutcome) (q : GuildQueue) :
    (playNextTrack oracle q).2 ⊆ trackIds q := by
  induction q using playNextTrack.induct oracle with
  | case1 q hq => rw [playNextTrack_nil oracle q hq]; simp
  | case2 q nextTrack rest hq ho ih =>
      rw [playNextTrack_cons_thrown oracle q _ _ hq ho]
      intro i hi
      simp only [List.mem_cons] at hi
      rcases hi with h1 | h2
      · simp [trackIds, hq, h1]
      · have := ih h2
        simp [trackIds, hq]
        simp [trackIds] at this
        exact Or.inr this
  | case3 q nextTrack rest hq ho =>
      unfold playNextTrack
      split
      · next h0 => rw [hq] at h0; cases h0
      · next nt r h0 =>
          rw [hq] at h0; cases h0
          split
          · next hth => exact absurd hth ho
          · intro i hi
            simp only [List.mem_singleton] at hi
            simp [trackIds, hq, hi]

theorem playNextTrack_current_mem (oracle : Nat → PlayOutcome) (q : GuildQueue)
    (c : QueuedTrack) (h : (playNextTrack oracle q).1.currentTrack = some c) :
    c ∈ q.tracks := by
  induction q using playNextTrack.induct oracle with
  | case1 q hq => rw [playNextTrack_nil oracle q hq] at h; cases h
  | case2 q nextTrack rest hq ho ih =>
      rw [playNextTrack_cons_thrown oracle q _ _ hq ho] at h
      have := ih h
      simp at this
      simp [hq, this]
  | case3 q nextTrack rest hq ho =>
      unfold playNextTrack at h
      revert h
      split
      · next h0 => rw [hq] at h0; cases h0
      · next nt r h0 =>
          rw [hq] at h0; cases h0
          split
          · next hth => exact absurd hth ho
          · intro h
            simp at h
            simp [hq, h]

theorem playNextTrack_inv (oracle : Nat → PlayOutcome) (q : GuildQueue)
    (h : (trackIds q).Nodup) : Inv (playNextTrack oracle q).1 := by
  induction q using playNextTrack.induct oracle with
  | case1 q hq =>
      rw [playNextTrack_nil oracle q hq]
      refine ⟨rfl, ?_, ?_⟩
      · simp [trackIds, hq]
      · intro c hc; cases hc
  | case2 q nextTrack rest hq ho ih =>
      rw [playNextTrack_cons_thrown oracle q _ _ hq ho]
      apply ih
      simp only [trackIds, hq, List.map_cons, List.nodup_cons] at h
      simpa [trackIds] using h.2
  | case3 q nextTrack rest hq ho =>
      unfold playNextTrack
      split
      · next h0 => rw [hq] at h0; cases h0
      · next nt r h0 =>
          rw [hq] at h0; cases h0
          split
          · next hth => exact absurd hth ho
          · simp only [trackIds, hq, List.map_cons, List.nodup_cons] at h
            refine ⟨rfl, ?_, ?_⟩
            · simpa [trackIds] using h.2
            · intro c hc
              simp at hc
              subst hc
              simpa [trackIds] using h.1

theorem playNextTrack_trackIds_sub (oracle : Nat → PlayOutcome) (q : GuildQueue) :
    trackIds (playNextTrack oracle q).1 ⊆ trackIds q :=
  List.map_subset _ (playNextTrack_tracks_suffix oracle q).subset

theorem addToHistory_fields (q : GuildQueue) (t : QueuedTrack) :
    (addToHistory q t).tracks = q.tracks ∧
    (addToHistory q t).currentTrack = q.currentTrack ∧
    (addToHistory q t).isPlaying = q.isPlaying ∧
    (addToHistory q t).loopMode = q.loopMode := by
  unfold addToHistory
  dsimp only
  split <;> exact ⟨rfl, rfl, rfl, rfl⟩

theorem addToHistory_getLast (q : GuildQueue) (t : QueuedTrack) :
    (addToHistory q t).trackHistory.getLast? = some t := by
  unfold addToHistory
  dsimp only
  split
  · next hlen =>
      cases hq : q.trackHistory with
      | nil => rw [hq] at hlen; simp [MAX_HISTORY_SIZE] at hlen
      | cons x l => simp [List.getLast?_append_cons]
  · simp [List.concat_eq_append, List.getLast?_append_cons]

theorem addToHistory_le (q : GuildQueue) (t : QueuedTrack)
    (h : q.trackHistory.length ≤ MAX_HISTORY_SIZE) :
    (addToHistory q t).trackHistory.length ≤ MAX_HISTORY_SIZE := by
  unfold addToHistory
  dsimp only
  split <;> simp_all

theorem addToHistory_evicts (q : GuildQueue) (t : QueuedTrack)
    (h : q.trackHistory.length = MAX_HISTORY_SIZE) :
    (addToHistory q t).trackHistory = q.trackHistory.tail ++ [t] := by
  unfold addToHistory
  dsimp only
  split
  · next hlen =>
      cases hq : q.trackHistory with
      | nil => rw [hq] at h; simp [MAX_HISTORY_SIZE] at h
      | cons x l => simp
  · next hlen =>
      exfalso
      rw [List.length_append, h] at hlen
      simp at hlen

theorem processQueue_inv (oracle : Nat → PlayOutcome) (now : Nat) (q : GuildQueue)
    (h : (trackIds q).Nodup) : Inv (processQueue oracle now q).1 := by
  unfold processQueue
  split
  · next htr =>
      refine ⟨rfl, ?_, ?_⟩
      · simp [trackIds, htr]
      · intro c hc; cases hc
  · next track rest htr =>
      simp only [trackIds, htr, List.map_cons, List.nodup_cons] at h
      have hInv1 : Inv
          { q with
              tracks := rest
              currentTrack := some track
              isPlaying := true
              lastActivity := now } := by
        refine ⟨rfl, ?_, ?_⟩
        · simpa [trackIds] using h.2
        · intro c hc
          simp at hc
          subst hc
          simpa [trackIds] using h.1
      split <;> exact hInv1

theorem handleTrackEnd_inv (oracle : Nat → PlayOutcome) (isError : Bool)
    (q : GuildQueue) (hInv : Inv q) : Inv (handleTrackEnd oracle isError q).1 := by
  unfold handleTrackEnd
  split
  · exact hInv
  · next t hc =>
      have hnodup : (trackIds q).Nodup := hInv.2.1
      have hskipInv : Inv (playNextTrack oracle (addToHistory q t)).1 := by
        apply playNextTrack_inv
        have hth : (addToHistory q t).tracks = q.tracks := (addToHistory_fields q t).1
        simp only [trackIds, hth]
        exact hnodup
      split
      · split
        · split
          · exact hInv
          · exact playNextTrack_inv oracle q hnodup
        · apply playNextTrack_inv
          have hnin : t.id ∉ trackIds q := hInv.2.2 t hc
          simp only [trackIds, List.map_append, List.map_cons, List.map_nil]
          simp [List.nodup_append]
          exact ⟨hnodup, by simpa [trackIds] using hnin⟩
        · exact hskipInv
      · exact hskipInv

theorem trackIds_addToHistory (q : GuildQueue) (t : QueuedTrack) :
    trackIds (addToHistory q t) = trackIds q := by
  simp [trackIds, (addToHistory_fields q t).1]

theorem skipTrackQueue_inv (q : GuildQueue) (hInv : Inv q) : Inv (skipTrackQueue q).1 := by
  unfold skipTrackQueue
  split
  · exact hInv
  · split
    · next t hc =>
        refine ⟨?_, ?_, ?_⟩
        · rw [show ({ q with currentTrack := some { t with state := { t.state with wasSkipped := true } } } : GuildQueue).isPlaying = q.isPlaying from rfl,
             hInv.1, hc]
          rfl
        · simpa [trackIds] using hInv.2.1
        · intro c hcc
          simp at hcc
          have : c.id = t.id := by rw [← hcc]
          rw [show trackIds ({ q with currentTrack := some { t with state := { t.state with wasSkipped := true } } } : GuildQueue) = trackIds q from rfl, this]
          exact hInv.2.2 t hc
    · exact hInv

theorem setLoopModeQueue_inv (mode : LoopMode) (q : GuildQueue) (hInv : Inv q) :
    Inv (setLoopModeQueue mode q) := hInv

theorem freshGuildQueue_inv (now : Nat) : Inv (freshGuildQueue now) := by
  refine ⟨rfl, ?_, ?_⟩
  · simp [trackIds, freshGuildQueue]
  · intro c hc
    simp [freshGuildQueue] at hc

theorem addToQueue_inv (oracle : Nat → PlayOutcome) (id : Nat) (vi : VideoInfo)
    (member : String) (now : Nat) (q : GuildQueue) (hInv : Inv q)
    (hid1 : id ∉ trackIds q) (hid2 : ∀ c, q.currentTrack = some c → id ≠ c.id) :
    Inv (addToQueue oracle id vi member now q).1 := by
  unfold addToQueue
  dsimp only
  have hnodup1 : (trackIds
      { q with
          tracks := q.tracks ++ [mkQueuedTrack id vi member now]
          lastActivity := now }).Nodup := by
    simp only [trackIds, List.map_append, List.map_cons, List.map_nil]
    simp [List.nodup_append, mkQueuedTrack]
    exact ⟨by simpa [trackIds] using hInv.2.1, by simpa [trackIds] using hid1⟩
  split
  · exact processQueue_inv oracle now _ hnodup1
  · refine ⟨hInv.1, hnodup1, ?_⟩
    intro c hc
    simp only [trackIds, List.map_append, List.map_cons, List.map_nil, List.mem_append,
      List.mem_singleton, mkQueuedTrack]
    intro hmem
    rcases hmem with h1 | h2
    · exact hInv.2.2 c hc (by simpa [trackIds] using h1)
    · exact hid2 c hc h2.symm

/-- Claim C1: when the current track ends with the skip flag set, under any
loop mode and whether or not the end was an error, the track is moved to the
history list (it becomes the newest history entry), no play command is issued
for it, and it is not re-appended to the pending sequence. -/
theorem C1_skip_always_to_history (oracle : Nat → PlayOutcome) (isError : Bool)
    (q : GuildQueue) (t : QueuedTrack)
    (hcur : q.currentTrack = some t) (hskip : t.state.wasSkipped = true)
    (hnin : t.id ∉ trackIds q) :
    (handleTrackEnd oracle isError q).1.trackHistory.getLast? = some t
    ∧ t.id ∉ (handleTrackEnd oracle isError q).2
    ∧ t.id ∉ trackIds (handleTrackEnd oracle isError q).1 := by
  have hred : handleTrackEnd oracle isError q
      = playNextTrack oracle (addToHistory q t) := by
    unfold handleTrackEnd
    rw [hcur]
    simp [hskip]
  rw [hred]
  refine ⟨?_, ?_, ?_⟩
  · rw [(playNextTrack_fields oracle _).1, addToHistory_getLast]
  · intro hmem
    have h1 := playNextTrack_plays_sub oracle _ hmem
    rw [trackIds_addToHistory] at h1
    exact hnin h1
  · intro hmem
    have h1 := playNextTrack_trackIds_sub oracle _ hmem
    rw [trackIds_addToHistory] at h1
    exact hnin h1

/-- Claim C3: under loop mode Queue, a natural (non-skipped, non-error)
completion re-appends the completed track at the tail of the pending
sequence with its playback state reset to the initial state, and the engine
advances to the next pending track. -/
theorem C3_queue_loop_reappends (oracle : Nat → PlayOutcome) (q : GuildQueue)
    (t b : QueuedTrack) (rest : List QueuedTrack)
    (hcur : q.currentTrack = some t) (hskip : t.state.wasSkipped = false)
    (hmode : q.loopMode = LoopMode.queue)
    (htr : q.tracks = b :: rest) (hok : oracle b.id = PlayOutcome.ok) :
    (onTrackEnd oracle q).1.tracks = rest ++ [{ t with state := initialTrackState }]
    ∧ (onTrackEnd oracle q).1.currentTrack = some b := by
  have hred : onTrackEnd oracle q
      = playNextTrack oracle
          { q with tracks := q.tracks ++ [{ t with state := initialTrackState }] } := by
    unfold onTrackEnd handleTrackEnd
    rw [hcur]
    simp [hskip, hmode]
  rw [hred, playNextTrack_cons_ok oracle _ b (rest ++ [{ t with state := initialTrackState }])
    (by simp [htr]) hok]
  exact ⟨rfl, rfl⟩

/-- Claim C10: when the current track ends with a transport error (not
skipped) under loop mode Track, the ended track is discarded entirely: the
history is unchanged, no play command is issued for it, it is not
re-appended to the pending sequence, and the engine advances to the next
pending track. -/
theorem C10_error_under_track_loop_drops (oracle : Nat → PlayOutcome)
    (q : GuildQueue) (t : QueuedTrack)
    (hcur : q.currentTrack = some t) (hskip : t.state.wasSkipped = false)
    (hmode : q.loopMode = LoopMode.track) (hnin : t.id ∉ trackIds q) :
    (onTrackError oracle q).1.trackHistory = q.trackHistory
    ∧ t.id ∉ (onTrackError oracle q).2
    ∧ t.id ∉ trackIds (onTrackError oracle q).1
    ∧ (∀ b rest, q.tracks = b :: rest → oracle b.id = PlayOutcome.ok →
        (onTrackError oracle q).1.currentTrack = some b) := by
  have hred : onTrackError oracle q = playNextTrack oracle q := by
    unfold onTrackError handleTrackEnd
    rw [hcur]
    simp [hskip, hmode]
  rw [hred]
  refine ⟨(playNextTrack_fields oracle q).1, ?_, ?_, ?_⟩
  · intro hmem
    exact hnin (playNextTrack_plays_sub oracle q hmem)
  · intro hmem
    exact hnin (playNextTrack_trackIds_sub oracle q hmem)
  · intro b rest htr hok
    rw [playNextTrack_cons_ok oracle q b rest htr hok]

/-- Claim C5 counterexample: a transport errored event under loop mode Track
does NOT replay the current track: no play command is issued and the current
slot is cleared, contradicting the claim that loop-mode rules still apply
unchanged (Track replays the same track) on an errored completion. -/
theorem C5_counterexample :
    (onTrackError MusicBot.oracleAllOk loopTrackQueue).2 = []
    ∧ (onTrackError MusicBot.oracleAllOk loopTrackQueue).1.currentTrack = none
    ∧ (onTrackError MusicBot.oracleAllOk loopTrackQueue).1.isPlaying = false := by
  have hred : onTrackError MusicBot.oracleAllOk loopTrackQueue
      = playNextTrack MusicBot.oracleAllOk loopTrackQueue := by
    unfold onTrackError handleTrackEnd
    rfl
  rw [hred, playNextTrack_nil MusicBot.oracleAllOk loopTrackQueue rfl]
  exact ⟨rfl, rfl, rfl⟩

/-- Claim C5 (amended): a transport errored event is handled as a completion
with the skip flag unchanged (false); loop mode Queue still re-appends the
ended track with reset state and None still moves it to history, but Track
mode does not replay on error: the errored track is dropped (no play command
for it, history unchanged). -/
theorem C5_error_completion_rules (oracle : Nat → PlayOutcome) (q : GuildQueue)
    (t : QueuedTrack)
    (hcur : q.currentTrack = some t) (hskip : t.state.wasSkipped = false)
    (hnin : t.id ∉ trackIds q) :
    (q.loopMode = LoopMode.queue → ∀ b rest, q.tracks = b :: rest →
       oracle b.id = PlayOutcome.ok →
       (onTrackError oracle q).1.tracks = rest ++ [{ t with state := initialTrackState }]
       ∧ (onTrackError oracle q).1.currentTrack = some b)
    ∧ (q.loopMode = LoopMode.none →
       (onTrackError oracle q).1.trackHistory.getLast? = some t)
    ∧ (q.loopMode = LoopMode.track →
       t.id ∉ (onTrackError oracle q).2
       ∧ (onTrackError oracle q).1.trackHistory = q.trackHistory) := by
  refine ⟨?_, ?_, ?_⟩
  · intro hmode b rest htr hok
    have hred : onTrackError oracle q
        = playNextTrack oracle
            { q with tracks := q.tracks ++ [{ t with state := initialTrackState }] } := by
      unfold onTrackError handleTrackEnd
      rw [hcur]
      simp [hskip, hmode]
    rw [hred, playNextTrack_cons_ok oracle _ b
      (rest ++ [{ t with state := initialTrackState }]) (by simp [htr]) hok]
    exact ⟨rfl, rfl⟩
  · intro hmode
    have hred : onTrackError oracle q
        = playNextTrack oracle (addToHistory q t) := by
      unfold onTrackError handleTrackEnd
      rw [hcur]
      simp [hskip, hmode]
    rw [hred, (playNextTrack_fields oracle _).1, addToHistory_getLast]
  · intro hmode
    have hred : onTrackError oracle q = playNextTrack oracle q := by
      unfold onTrackError handleTrackEnd
      rw [hcur]
      simp [hskip, hmode]
    rw [hred]
    exact ⟨fun hmem => hnin (playNextTrack_plays_sub oracle q hmem),
      (playNextTrack_fields oracle q).1⟩

/-- Claim C2 counterexample: on a fresh queue (nothing playing), `addToQueue`
itself starts playback: the resulting state is playing the enqueued track and
a play command for it was issued by the enqueue call, contradicting the claim
that the engine does not auto-start and that starting playback is a separate
caller-invoked advance. -/
theorem C2_counterexample :
    (addToQueue MusicBot.oracleAllOk 1 MusicBot.sampleInfo "member" 0
        (freshGuildQueue 0)).1.isPlaying = true
    ∧ (addToQueue MusicBot.oracleAllOk 1 MusicBot.sampleInfo "member" 0
        (freshGuildQueue 0)).1.currentTrack
      = some (mkQueuedTrack 1 MusicBot.sampleInfo "member" 0)
    ∧ (addToQueue MusicBot.oracleAllOk 1 MusicBot.sampleInfo "member" 0
        (freshGuildQueue 0)).2.1 = [1] :=
  ⟨rfl, rfl, rfl⟩

/-- Claim C2 (amended): `addToQueue` appends the track to the pending
sequence; when a track is already playing it issues no play command and
leaves the current slot alone, but when nothing is playing it immediately
advances itself (the head of the appended pending list becomes current and a
play command for it is issued), so after `addToQueue` the queue is always in
the playing state. -/
theorem C2_enqueue_behavior (oracle : Nat → PlayOutcome) (id : Nat) (vi : VideoInfo)
    (member : String) (now : Nat) (q : GuildQueue) :
    (addToQueue oracle id vi member now q).1.tracks
      = (if q.isPlaying then q.tracks ++ [mkQueuedTrack id vi member now]
         else (q.tracks ++ [mkQueuedTrack id vi member now]).tail)
    ∧ (addToQueue oracle id vi member now q).1.currentTrack
      = (if q.isPlaying then q.currentTrack
         else (q.tracks ++ [mkQueuedTrack id vi member now]).head?)
    ∧ (addToQueue oracle id vi member now q).2.1
      = (if q.isPlaying then []
         else ((q.tracks ++ [mkQueuedTrack id vi member now]).head?.map
                 fun x => x.id).toList)
    ∧ (addToQueue oracle id vi member now q).1.isPlaying = true := by
  unfold addToQueue
  dsimp only
  cases hp : q.isPlaying with
  | true => simp [hp]
  | false =>
      simp only [hp, if_false, Bool.false_eq_true]
      cases htr : q.tracks with
      | nil =>
          unfold processQueue
          rcases ho : oracle (mkQueuedTrack id vi member now).id with _ | e | _ <;>
            simp [htr, ho]
      | cons a l =>
          unfold processQueue
          rcases ho : oracle a.id with _ | e | _ <;> simp [htr, ho]

/-- Claim C4: the session invariant (isPlaying holds exactly when the
current slot is filled, and the pending sequence never contains the current
track) holds for a freshly created queue and is preserved by processQueue,
by completion handling, by skip, by setLoopMode and by enqueue (the enqueued
track id being fresh models JavaScript object identity of the new track). -/
theorem C4_session_invariant (oracle : Nat → PlayOutcome) (isError : Bool)
    (now id : Nat) (vi : VideoInfo) (member : String) (mode : LoopMode)
    (q : GuildQueue) (hInv : Inv q) (hid1 : id ∉ trackIds q)
    (hid2 : ∀ c, q.currentTrack = some c → id ≠ c.id) :
    Inv (freshGuildQueue now)
    ∧ Inv (processQueue oracle now q).1
    ∧ Inv (handleTrackEnd oracle isError q).1
    ∧ Inv (skipTrackQueue q).1
    ∧ Inv (setLoopModeQueue mode q)
    ∧ Inv (addToQueue oracle id vi member now q).1 :=
  ⟨freshGuildQueue_inv now,
   processQueue_inv oracle now q hInv.2.1,
   handleTrackEnd_inv oracle isError q hInv,
   skipTrackQueue_inv q hInv,
   setLoopModeQueue_inv mode q hInv,
   addToQueue_inv oracle id vi member now q hInv hid1 hid2⟩

theorem lookup_eq_none_of_not_mem_keys {α β : Type} [BEq α] [LawfulBEq α]
    (l : List (α × β)) (k : α) (h : k ∉ l.map Prod.fst) : l.lookup k = none := by
  induction l with
  | nil => rfl
  | cons p rest ih =>
      obtain ⟨k0, v0⟩ := p
      simp only [List.map_cons, List.mem_cons] at h
      push_neg at h
      simp only [List.lookup]
      rw [show (k == k0) = false from by simpa using h.1]
      exact ih h.2

theorem lookup_eraseP_ne (qs : Registry) (g g2 : String) (hne : g2 ≠ g) :
    (qs.eraseP (fun p => p.1 == g)).lookup g2 = qs.lookup g2 := by
  induction qs with
  | nil => rfl
  | cons p rest ih =>
      obtain ⟨k, v⟩ := p
      by_cases hk : k = g
      · subst hk
        rw [List.eraseP_cons_of_pos (by simp)]
        simp only [List.lookup]
        rw [show (g2 == k) = false from by simpa using hne]
      · rw [List.eraseP_cons_of_neg (by simpa using hk)]
        simp only [List.lookup]
        cases hg2 : (g2 == k) with
        | true => rfl
        | false => exact ih

theorem lookup_eraseP_self (qs : Registry) (g : String)
    (hnodup : (qs.map Prod.fst).Nodup) :
    (qs.eraseP (fun p => p.1 == g)).lookup g = none := by
  induction qs with
  | nil => rfl
  | cons p rest ih =>
      obtain ⟨k, v⟩ := p
      simp only [List.map_cons, List.nodup_cons] at hnodup
      by_cases hk : k = g
      · subst hk
        rw [List.eraseP_cons_of_pos (by simp)]
        exact lookup_eq_none_of_not_mem_keys rest k hnodup.1
      · rw [List.eraseP_cons_of_neg (by simpa using hk)]
        simp only [List.lookup]
        rw [show (g == k) = false from by simp; exact fun h => hk h.symm]
        exact ih hnodup.2

/-- Claim C6 counterexample: clearing a guild that has no session returns a
Validation error rather than succeeding as a no-op, contradicting the claim
that removal is idempotent. -/
theorem C6_counterexample :
    (clearQueue [] "g").2
      = Except.error { type := ErrorType.Validation,
                       message := "No queue exists for this server" }
    ∧ (clearQueue [] "g").1 = [] :=
  ⟨rfl, rfl⟩

/-- Claim C6 (amended): `clearQueue` on an absent guild fails with a
Validation error and leaves the registry unchanged; only on a present guild
does it succeed. -/
theorem C6_removal_behavior (qs : Registry) (g : String) :
    (qs.lookup g = none →
       clearQueue qs g
         = (qs, Except.error { type := ErrorType.Validation,
                               message := "No queue exists for this server" }))
    ∧ (∀ q0, qs.lookup g = some q0 → (clearQueue qs g).2 = Except.ok ()) := by
  constructor
  · intro h
    unfold clearQueue
    rw [h]
  · intro q0 h
    unfold clearQueue
    rw [h]

/-- Claim C7 counterexample: clearing a session whose history is non-empty
deletes the whole session from the registry, so no history is preserved
past the clear, contradicting the claim that clear preserves the history
list until the session itself is removed. -/
theorem C7_counterexample :
    historyQueue.trackHistory = [MusicBot.sampleTrack 1]
    ∧ (clearQueue [("g", historyQueue)] "g").1 = []
    ∧ (clearQueue [("g", historyQueue)] "g").1.lookup "g" = none :=
  ⟨rfl, rfl, rfl⟩

/-- Claim C7 (amended): `clearQueue` on an existing session removes the
entire session (pending, current track and history are discarded together:
no entry for the guild remains), succeeds, and leaves other guilds
untouched. -/
theorem C7_clear_removes_whole_session (qs : Registry) (g : String) (q0 : GuildQueue)
    (hnodup : (qs.map Prod.fst).Nodup) (hl : qs.lookup g = some q0) :
    (clearQueue qs g).2 = Except.ok ()
    ∧ (clearQueue qs g).1.lookup g = none
    ∧ (∀ g2, g2 ≠ g → (clearQueue qs g).1.lookup g2 = qs.lookup g2) := by
  have hred : clearQueue qs g = (qs.eraseP (fun p => p.1 == g), Except.ok ()) := by
    unfold clearQueue
    rw [hl]
  rw [hred]
  exact ⟨rfl, lookup_eraseP_self qs g hnodup, fun g2 h => lookup_eraseP_ne qs g g2 h⟩

/-- Claim C8: the history list never exceeds `MAX_HISTORY_SIZE` (50):
insertion preserves the bound, inserting into a full history evicts the
oldest entry, and completion handling preserves the bound. -/
theorem C8_history_bound (oracle : Nat → PlayOutcome) (isError : Bool)
    (q : GuildQueue) (t : QueuedTrack)
    (hle : q.trackHistory.length ≤ MAX_HISTORY_SIZE) :
    (addToHistory q t).trackHistory.length ≤ MAX_HISTORY_SIZE
    ∧ (q.trackHistory.length = MAX_HISTORY_SIZE →
        (addToHistory q t).trackHistory = q.trackHistory.tail ++ [t])
    ∧ (handleTrackEnd oracle isError q).1.trackHistory.length ≤ MAX_HISTORY_SIZE := by
  refine ⟨addToHistory_le q t hle, addToHistory_evicts q t, ?_⟩
  unfold handleTrackEnd
  split
  · exact hle
  · next t2 hc =>
      have hbase :
          (playNextTrack oracle (addToHistory q t2)).1.trackHistory.length
            ≤ MAX_HISTORY_SIZE := by
        rw [(playNextTrack_fields oracle _).1]
        exact addToHistory_le q t2 hle
      split
      · split
        · split
          · exact hle
          · rw [(playNextTrack_fields oracle q).1]
            exact hle
        · rw [(playNextTrack_fields oracle _).1]
          exact hle
        · exact hbase
      · exact hbase

end MusicBot.QueueService

namespace MusicBot.FileCacheService

open MusicBot

theorem lookup_setEntry_self (c : Cache) (key : String) (e : CacheEntry) :
    (setEntry c key e).lookup key = some e := by
  induction c with
  | nil => simp [setEntry, List.lookup]
  | cons p rest ih =>
      obtain ⟨k, v⟩ := p
      unfold setEntry
      cases hk : (k == key) with
      | true => simp [hk, List.lookup]
      | false =>
          have hne : k ≠ key := by simpa using hk
          have hk2 : (key == k) = false := by
            simp only [beq_eq_false_iff_ne]
            exact fun h => hne h.symm
          simp only [hk, Bool.false_eq_true, if_false, List.lookup, hk2]
          exact ih

theorem mem_cleanOldEntries (now maxAgeHours : Nat) (c : Cache)
    (p : String × CacheEntry) :
    p ∈ cleanOldEntries now maxAgeHours c
      ↔ (p ∈ c ∧ now - p.2.accessedAt ≤ maxAgeHours * 60 * 60 * 1000) := by
  unfold cleanOldEntries
  rw [List.mem_filter]
  simp

theorem lookup_filter_value {α β : Type} [BEq α] [LawfulBEq α] (f : β → Bool)
    (l : List (α × β)) (k : α) (e : β) (hl : l.lookup k = some e)
    (he : f e = true) :
    (l.filter (fun p => f p.2)).lookup k = some e := by
  induction l with
  | nil => cases hl
  | cons q rest ih =>
      obtain ⟨k0, e0⟩ := q
      simp only [List.lookup] at hl
      cases hk : (k == k0) with
      | true =>
          rw [hk] at hl
          dsimp only at hl
          cases hl
          rw [List.filter_cons_of_pos (by exact he)]
          simp [List.lookup, hk]
      | false =>
          rw [hk] at hl
          dsimp only at hl
          cases hf : f e0 with
          | true =>
              rw [List.filter_cons_of_pos (by exact hf)]
              simp only [List.lookup, hk]
              exact ih hl
          | false =>
              rw [List.filter_cons_of_neg (by intro hc; dsimp only at hc; rw [hf] at hc; cases hc)]
              exact ih hl

theorem lookup_cleanOldEntries_of_fresh (now maxAgeHours : Nat) (c : Cache)
    (k : String) (e : CacheEntry) (hl : c.lookup k = some e)
    (hfresh : now - e.accessedAt ≤ maxAgeHours * 60 * 60 * 1000) :
    (cleanOldEntries now maxAgeHours c).lookup k = some e := by
  unfold cleanOldEntries
  dsimp only
  exact lookup_filter_value
    (fun v => !(decide (now - v.accessedAt > maxAgeHours * 60 * 60 * 1000)))
    c k e hl (by simp; omega)

/-- Claim C9: a cache `get` on an existing entry returns the stored metadata
and rewrites the entry with `accessedAt` set to the read time; eviction
removes exactly the entries whose `accessedAt` is older than the max age; a
`get` on an entry accessed within the max age still hits after eviction. -/
theorem C9_cache_get_refresh_and_eviction (now later maxAgeHours : Nat)
    (c : Cache) (key : String) (e : CacheEntry)
    (hl : c.lookup key = some e)
    (hfresh : now - e.accessedAt ≤ maxAgeHours * 60 * 60 * 1000) :
    (get later c key).2 = some e.data
    ∧ (get later c key).1.lookup key = some { e with accessedAt := later }
    ∧ (∀ p, p ∈ cleanOldEntries now maxAgeHours c
        ↔ (p ∈ c ∧ now - p.2.accessedAt ≤ maxAgeHours * 60 * 60 * 1000))
    ∧ (get later (cleanOldEntries now maxAgeHours c) key).2 = some e.data := by
  refine ⟨?_, ?_, fun p => mem_cleanOldEntries now maxAgeHours c p, ?_⟩
  · unfold get
    rw [hl]
  · unfold get
    rw [hl]
    exact lookup_setEntry_self c key { e with accessedAt := later }
  · unfold get
    rw [lookup_cleanOldEntries_of_fresh now maxAgeHours c key e hl hfresh]

end MusicBot.FileCacheService

namespace MusicBot

open QueueService FileCacheService

/-- Claim C1 witness: the theorem applied to a concrete skipped track. -/
theorem C1_witness :
    (skipQueue.currentTrack = some skippedTrack
     ∧ skippedTrack.state.wasSkipped = true
     ∧ skippedTrack.id ∉ trackIds skipQueue)
    ∧ ((handleTrackEnd oracleAllOk false skipQueue).1.trackHistory.getLast?
         = some skippedTrack
       ∧ skippedTrack.id ∉ (handleTrackEnd oracleAllOk false skipQueue).2
       ∧ skippedTrack.id ∉ trackIds (handleTrackEnd oracleAllOk false skipQueue).1) :=
  ⟨⟨rfl, rfl, by decide⟩,
   C1_skip_always_to_history oracleAllOk false skipQueue skippedTrack rfl rfl (by decide)⟩

/-- Claim C3 witness: the theorem applied to a concrete Queue-loop queue. -/
theorem C3_witness :
    (queueLoopQueue.currentTrack = some (sampleTrack 1)
     ∧ (sampleTrack 1).state.wasSkipped = false
     ∧ queueLoopQueue.loopMode = LoopMode.queue
     ∧ queueLoopQueue.tracks = sampleTrack 2 :: []
     ∧ oracleAllOk (sampleTrack 2).id = PlayOutcome.ok)
    ∧ ((onTrackEnd oracleAllOk queueLoopQueue).1.tracks
         = [] ++ [{ sampleTrack 1 with state := initialTrackState }]
       ∧ (onTrackEnd oracleAllOk queueLoopQueue).1.currentTrack = some (sampleTrack 2)) :=
  ⟨⟨rfl, rfl, rfl, rfl, rfl⟩,
   C3_queue_loop_reappends oracleAllOk queueLoopQueue (sampleTrack 1) (sampleTrack 2) []
     rfl rfl rfl rfl rfl⟩

/-- Claim C4 witness: the invariant theorem applied to the fresh queue with
its hypotheses discharged. -/
theorem C4_witness :
    (Inv (freshGuildQueue 0)
     ∧ (1 : Nat) ∉ trackIds (freshGuildQueue 0)
     ∧ (∀ c, (freshGuildQueue 0).currentTrack = some c → (1 : Nat) ≠ c.id))
    ∧ (Inv (freshGuildQueue 5)
       ∧ Inv (processQueue oracleAllOk 5 (freshGuildQueue 0)).1
       ∧ Inv (handleTrackEnd oracleAllOk false (freshGuildQueue 0)).1
       ∧ Inv (skipTrackQueue (freshGuildQueue 0)).1
       ∧ Inv (setLoopModeQueue LoopMode.queue (freshGuildQueue 0))
       ∧ Inv (addToQueue oracleAllOk 1 sampleInfo "member" 5 (freshGuildQueue 0)).1) :=
  ⟨⟨freshGuildQueue_inv 0, by decide,
    fun c hc => by simp [freshGuildQueue] at hc⟩,
   C4_session_invariant oracleAllOk false 5 1 sampleInfo "member" LoopMode.queue
     (freshGuildQueue 0) (freshGuildQueue_inv 0) (by decide)
     (fun c hc => by simp [freshGuildQueue] at hc)⟩

/-- Claim C5 witness: the amended theorem applied to concrete queues in each
loop mode. -/
theorem C5_witness :
    ((queueLoopQueue.currentTrack = some (sampleTrack 1)
      ∧ (sampleTrack 1).state.wasSkipped = false
      ∧ (sampleTrack 1).id ∉ trackIds queueLoopQueue
      ∧ queueLoopQueue.loopMode = LoopMode.queue)
     ∧ ((onTrackError oracleAllOk queueLoopQueue).1.tracks
          = [] ++ [{ sampleTrack 1 with state := initialTrackState }]
        ∧ (onTrackError oracleAllOk queueLoopQueue).1.currentTrack
          = some (sampleTrack 2)))
    ∧ ((noneLoopQueue.loopMode = LoopMode.none)
       ∧ (onTrackError oracleAllOk noneLoopQueue).1.trackHistory.getLast?
         = some (sampleTrack 1))
    ∧ ((loopTrackQueue.loopMode = LoopMode.track)
       ∧ ((sampleTrack 1).id ∉ (onTrackError oracleAllOk loopTrackQueue).2
          ∧ (onTrackError oracleAllOk loopTrackQueue).1.trackHistory
            = loopTrackQueue.trackHistory)) :=
  ⟨⟨⟨rfl, rfl, by decide, rfl⟩,
    (C5_error_completion_rules oracleAllOk queueLoopQueue (sampleTrack 1)
       rfl rfl (by decide)).1 rfl (sampleTrack 2) [] rfl rfl⟩,
   ⟨rfl,
    (C5_error_completion_rules oracleAllOk noneLoopQueue (sampleTrack 1)
       rfl rfl (by decide)).2.1 rfl⟩,
   ⟨rfl,
    (C5_error_completion_rules oracleAllOk loopTrackQueue (sampleTrack 1)
       rfl rfl (by decide)).2.2 rfl⟩⟩

/-- Claim C6 witness: the amended theorem applied to the empty registry and
to a one-session registry. -/
theorem C6_witness :
    ((([] : Registry).lookup "g" = none
      ∧ clearQueue [] "g"
        = ([], Except.error { type := ErrorType.Validation,
                              message := "No queue exists for this server" })))
    ∧ (historyRegistry.lookup "g" = some historyQueue
       ∧ (clearQueue historyRegistry "g").2 = Except.ok ()) :=
  ⟨⟨rfl, (C6_removal_behavior [] "g").1 rfl⟩,
   ⟨rfl, (C6_removal_behavior historyRegistry "g").2 historyQueue rfl⟩⟩

/-- Claim C7 witness: the amended theorem applied to a concrete registry. -/
theorem C7_witness :
    ((historyRegistry.map Prod.fst).Nodup
     ∧ historyRegistry.lookup "g" = some historyQueue)
    ∧ ((clearQueue historyRegistry "g").2 = Except.ok ()
       ∧ (clearQueue historyRegistry "g").1.lookup "g" = none
       ∧ (∀ g2, g2 ≠ "g" →
            (clearQueue historyRegistry "g").1.lookup g2 = historyRegistry.lookup g2)) :=
  ⟨⟨by simp [historyRegistry], rfl⟩,
   C7_clear_removes_whole_session historyRegistry "g" historyQueue
     (by simp [historyRegistry]) rfl⟩

/-- Claim C8 witness: the theorem applied to a queue whose history holds
exactly 50 entries. -/
theorem C8_witness :
    (fullHistoryQueue.trackHistory.length ≤ MAX_HISTORY_SIZE)
    ∧ ((addToHistory fullHistoryQueue (sampleTrack 9)).trackHistory.length
         ≤ MAX_HISTORY_SIZE
       ∧ (fullHistoryQueue.trackHistory.length = MAX_HISTORY_SIZE →
           (addToHistory fullHistoryQueue (sampleTrack 9)).trackHistory
             = fullHistoryQueue.trackHistory.tail ++ [sampleTrack 9])
       ∧ (handleTrackEnd oracleAllOk false fullHistoryQueue).1.trackHistory.length
           ≤ MAX_HISTORY_SIZE) :=
  ⟨by simp [fullHistoryQueue, freshGuildQueue, MAX_HISTORY_SIZE],
   C8_history_bound oracleAllOk false fullHistoryQueue (sampleTrack 9)
     (by simp [fullHistoryQueue, freshGuildQueue, MAX_HISTORY_SIZE])⟩

/-- Claim C9 witness: the theorem applied to a concrete one-entry cache. -/
theorem C9_witness :
    (sampleCache.lookup "k" = some sampleEntry
     ∧ 1000 - sampleEntry.accessedAt ≤ 1 * 60 * 60 * 1000)
    ∧ ((FileCacheService.get 2000 sampleCache "k").2 = some sampleEntry.data
       ∧ (FileCacheService.get 2000 sampleCache "k").1.lookup "k"
         = some { sampleEntry with accessedAt := 2000 }
       ∧ (∀ p, p ∈ FileCacheService.cleanOldEntries 1000 1 sampleCache
            ↔ (p ∈ sampleCache ∧ 1000 - p.2.accessedAt ≤ 1 * 60 * 60 * 1000))
       ∧ (FileCacheService.get 2000
            (FileCacheService.cleanOldEntries 1000 1 sampleCache) "k").2
         = some sampleEntry.data) :=
  ⟨⟨rfl, by decide⟩,
   FileCacheService.C9_cache_get_refresh_and_eviction 1000 2000 1 sampleCache "k"
     sampleEntry rfl (by decide)⟩

/-- Claim C10 witness: the theorem applied to a concrete Track-loop queue
with one pending track. -/
theorem C10_witness :
    (trackLoopQueue2.currentTrack = some (sampleTrack 1)
     ∧ (sampleTrack 1).state.wasSkipped = false
     ∧ trackLoopQueue2.loopMode = LoopMode.track
     ∧ (sampleTrack 1).id ∉ trackIds trackLoopQueue2)
    ∧ ((onTrackError oracleAllOk trackLoopQueue2).1.trackHistory
         = trackLoopQueue2.trackHistory
       ∧ (sampleTrack 1).id ∉ (onTrackError oracleAllOk trackLoopQueue2).2
       ∧ (sampleTrack 1).id ∉ trackIds (onTrackError oracleAllOk trackLoopQueue2).1
       ∧ (∀ b rest, trackLoopQueue2.tracks = b :: rest →
           oracleAllOk b.id = PlayOutcome.ok →
           (onTrackError oracleAllOk trackLoopQueue2).1.currentTrack = some b)) :=
  ⟨⟨rfl, rfl, rfl, by decide⟩,
   C10_error_under_track_loop_drops oracleAllOk trackLoopQueue2 (sampleTrack 1)
     rfl rfl rfl (by decide)⟩

end MusicBot
